import Mathlib

/-!
# Model of the USRL shared-memory ring core (kachow)

A shallow embedding of the ring-buffer core found in `src/core`:

* `ring_swmr.c` — single-writer publish (`usrl_pub_publish`), the shared
  subscriber (`usrl_sub_next`), and the telemetry helper
  (`usrl_swmr_last_publish_ns`);
* `ring_mwmr.c` — multi-writer publish (`usrl_mwmr_pub_publish`) with its
  generation-based slot wait loop;
* `usrl_core.c` — topic lookup (`usrl_get_topic`);
* `usrl_health.c` — `usrl_health_get`'s `last_publish_ns` projection;
* `usrl.c` — the facade subscriber health query (`usrl_sub_get_health`).

Machine integers (`uint64_t`, `uint32_t`) are modelled as `Nat`; every
subtraction performed by the code is either guarded by a comparison in the
code itself, or modelled with an explicit wrap (`slotCapacity`).  Shared
memory is modelled per ring as a total map from slot index to slot contents;
a fresh region is all-zero (`usrl_core_init` memsets the region and stores 0
into every slot's `seq`).  Atomic loads and stores are collapsed to plain
state reads/updates: each modelled operation is one sequential execution
step, with the observed environment (for the MWMR wait loop) passed in
explicitly as a stream of observed sequence values.
-/

namespace Usrl

/-- Ring return codes from `usrl_ring.h`. -/
def USRL_RING_OK : Int := 0

/-- `usrl_ring.h`: generic error (invalid arguments). -/
def USRL_RING_ERROR : Int := -1

/-- `usrl_ring.h`: payload too large for slot. -/
def USRL_RING_FULL : Int := -2

/-- `usrl_ring.h`: reader buffer too small. -/
def USRL_RING_TRUNC : Int := -3

/-- `usrl_ring.h`: spin budget exhausted in the MWMR writer. -/
def USRL_RING_TIMEOUT : Int := -4

/-- Magic constant from `usrl_core.h` (`USRL_MAGIC 0x5553524C`). -/
def USRL_MAGIC : Nat := 0x5553524C

/-- `sizeof(SlotHeader)`: seq (u64) + timestamp_ns (u64) + payload_len (u32)
+ pub_id (u16) + padding to 8 bytes = 24.  (`ring_swmr.c`/`ring_mwmr.c`
store `hdr->pub_id`; the layout is the spec's §3 slot header, 8-byte
aligned as the `_Static_assert` in `usrl_core.h` requires.) -/
def slotHeaderSize : Nat := 24

/-- `d->slot_size - sizeof(SlotHeader)` as the C code computes it: the
`uint32_t` slot size is widened to 64 bits and the subtraction wraps modulo
2^64 when `slot_size < sizeof(SlotHeader)`. -/
def slotCapacity (slot_size : Nat) : Nat :=
  (slot_size + 2 ^ 64 - slotHeaderSize) % 2 ^ 64

/-- One slot of a ring: the `SlotHeader` fields plus the payload bytes that
follow the header inside the slot. -/
structure Slot where
  seq : Nat
  timestamp_ns : Nat
  payload_len : Nat
  pub_id : Nat
  payload : List Nat
deriving Repr, DecidableEq

/-- A zeroed slot, as produced by `usrl_core_init` (region memset to 0 and
every slot's `seq` stored as 0). -/
instance : Inhabited Slot := ⟨⟨0, 0, 0, 0, []⟩⟩

/-- A ring: the `RingDesc` fields (`slot_count`, `slot_size`, `w_head`)
together with the slot array that `base_offset` points at.  Slot `i` lives
at byte offset `base_offset + i * slot_size`; the model indexes the array
directly.  `slot_count` is a power of two by construction
(`next_power_of_two_u32` in `usrl_core_init`); theorems that depend on this
carry it as a hypothesis. -/
structure RingDesc where
  slot_count : Nat
  slot_size : Nat
  w_head : Nat
  slots : Nat → Slot

/-- Publisher handle (`UsrlPublisher`): after `usrl_pub_init` it caches the
descriptor, the slot base pointer and `mask = slot_count - 1`; only the
publisher id is independent state, the rest is resolved against the ring. -/
structure UsrlPublisher where
  pub_id : Nat

/-- MWMR publisher handle (`UsrlMwmrPublisher`), same resolution as the
SWMR handle. -/
structure UsrlMwmrPublisher where
  pub_id : Nat

/-- Subscriber handle (`UsrlSubscriber`): read cursor `last_seq`
(initially 0) and the `skipped_count` field declared in `usrl_ring.h` as
the internal skip tracker. -/
structure UsrlSubscriber where
  last_seq : Nat
  skipped_count : Nat
deriving Repr, DecidableEq

/-- `usrl_pub_publish` (ring_swmr.c:104-163), sequentially: reserve
`commit_seq = fetch_add(w_head) + 1`, index `(commit_seq - 1) & mask`,
write payload and header fields, then commit `seq = commit_seq`.
`now` is the value `usrl_timestamp_ns()` returns during the call; the
payload length argument `len` is `data.length`.  Returns the updated ring
and the C return code (0 ok, -2 payload too large; the -1 NULL-argument
path has no counterpart in the model). -/
def usrl_pub_publish (p : UsrlPublisher) (d : RingDesc) (data : List Nat)
    (now : Nat) : RingDesc × Int :=
  if slotCapacity d.slot_size < data.length then (d, -2)
  else
    let old_head := d.w_head
    let commit_seq := old_head + 1
    let idx := (commit_seq - 1) &&& (d.slot_count - 1)
    let slot : Slot :=
      { seq := commit_seq
        timestamp_ns := now
        payload_len := data.length
        pub_id := p.pub_id
        payload := data }
    ({ d with
        w_head := commit_seq
        slots := fun j => if j = idx then slot else d.slots j }, 0)

/-- Result of `usrl_sub_next`: updated subscriber, the C return code, the
bytes copied into `out_buf`, and the value stored through `out_pub_id`
(`none` when the call does not reach the copy). -/
structure SubRet where
  sub : UsrlSubscriber
  ret : Int
  out : List Nat
  out_pub_id : Option Nat

/-- The slot-read tail of `usrl_sub_next` (ring_swmr.c:266-332), from the
index computation onward.  `next` is the sequence to read, `w_head` the
head value loaded at entry (used by the torn-read recovery path).  In this
sequential model the ring does not change during the call, so the post-copy
reload of `seq` sees the same value; the branch is kept to mirror the
code. -/
def usrl_sub_read (s : UsrlSubscriber) (d : RingDesc)
    (next bufLen w_head : Nat) : SubRet :=
  let idx := (next - 1) &&& (d.slot_count - 1)
  let slot := d.slots idx
  let seq := slot.seq
  if seq = 0 ∨ seq < next then ⟨s, 0, [], none⟩
  else if next < seq then ⟨{ s with last_seq := seq - 1 }, 0, [], none⟩
  else
    let payload_len := slot.payload_len
    if bufLen < payload_len then ⟨{ s with last_seq := next }, -3, [], none⟩
    else
      let out := (slot.payload).take payload_len
      let post_seq := slot.seq
      if post_seq ≠ seq then ⟨{ s with last_seq := w_head }, 0, [], none⟩
      else ⟨{ s with last_seq := next }, (payload_len : Int), out,
            some slot.pub_id⟩

/-- `usrl_sub_next` (ring_swmr.c:221-332): load `w_head`, compute
`next = last_seq + 1`; return 0 when nothing is new; perform the lag jump
when `w_head - next >= slot_count` (advance `last_seq` to
`w_head - slot_count`, reload `w_head`, return 0 if still nothing); then
read the slot. -/
def usrl_sub_next (s : UsrlSubscriber) (d : RingDesc) (bufLen : Nat) :
    SubRet :=
  let w_head := d.w_head
  let next := s.last_seq + 1
  if w_head < next then ⟨s, 0, [], none⟩
  else if d.slot_count ≤ w_head - next then
    let new_start := w_head - d.slot_count + 1
    let s1 : UsrlSubscriber := { s with last_seq := new_start - 1 }
    let w_head1 := d.w_head
    if w_head1 < new_start then ⟨s1, 0, [], none⟩
    else usrl_sub_read s1 d new_start bufLen w_head1
  else usrl_sub_read s d next bufLen w_head

/-- The MWMR wait-loop predicate (ring_mwmr.c:61-68): the slot is free for
the writer holding `commit_seq` when the loaded `seq` is 0 or belongs to an
older generation (`seq / slot_count < commit_seq / slot_count`). -/
def mwmrFree (seq commit_seq slot_count : Nat) : Bool :=
  seq == 0 || seq / slot_count < commit_seq / slot_count

/-- Spin budget of the MWMR wait loop (`max_iter` in ring_mwmr.c). -/
def mwmrMaxIter : Nat := 100000

/-- Outcome of the MWMR wait loop: `free t` means the loop broke after the
load numbered `t` (0-based), `timeout` that the budget ran out.  `stuck` is
the fuel-exhaustion sentinel of the model and is proved unreachable. -/
inductive MwmrWait where
  | free (t : Nat)
  | timeout
  | stuck
deriving Repr, DecidableEq

/-- The MWMR wait loop (ring_mwmr.c:57-74).  `obs t` is the sequence value
the `t`-th acquire load observes in the slot; `iter` counts failed loads so
far, as the C `iter` variable does.  Each pass loads, breaks if free,
otherwise backs off, increments `iter` and times out once
`iter > max_iter`. -/
def mwmrWaitGo (obs : Nat → Nat) (commit_seq slot_count : Nat) :
    Nat → Nat → MwmrWait
  | 0, _ => .stuck
  | fuel + 1, iter =>
    if mwmrFree (obs iter) commit_seq slot_count then .free iter
    else if mwmrMaxIter < iter + 1 then .timeout
    else mwmrWaitGo obs commit_seq slot_count fuel (iter + 1)

/-- `usrl_mwmr_pub_publish` (ring_mwmr.c:44-87) with the environment's
interference abstracted as the stream `obs` of sequence values the wait
loop observes.  Size check, reservation by `fetch_add(w_head)`, wait for
the slot, then payload write and commit.  On timeout the head stays
reserved (the C code has already done the `fetch_add`) but nothing is
committed. -/
def usrl_mwmr_pub_publish_obs (p : UsrlMwmrPublisher) (d : RingDesc)
    (data : List Nat) (now : Nat) (obs : Nat → Nat) : RingDesc × Int :=
  if slotCapacity d.slot_size < data.length then (d, USRL_RING_FULL)
  else
    let old_head := d.w_head
    let commit_seq := old_head + 1
    let idx := (commit_seq - 1) &&& (d.slot_count - 1)
    match mwmrWaitGo obs commit_seq d.slot_count (mwmrMaxIter + 2) 0 with
    | .stuck => ({ d with w_head := commit_seq }, -99)
    | .timeout => ({ d with w_head := commit_seq }, USRL_RING_TIMEOUT)
    | .free _ =>
      let slot : Slot :=
        { seq := commit_seq
          timestamp_ns := now
          payload_len := data.length
          pub_id := p.pub_id
          payload := data }
      ({ d with
          w_head := commit_seq
          slots := fun j => if j = idx then slot else d.slots j },
        USRL_RING_OK)

/-- `usrl_mwmr_pub_publish` run without interference: every load of the
target slot's `seq` observes the value currently stored in the ring. -/
def usrl_mwmr_pub_publish (p : UsrlMwmrPublisher) (d : RingDesc)
    (data : List Nat) (now : Nat) : RingDesc × Int :=
  usrl_mwmr_pub_publish_obs p d data now
    (fun _ => (d.slots (d.w_head &&& (d.slot_count - 1))).seq)

/-- A fresh ring as `usrl_core_init` lays it out: `w_head = 0` and every
slot zeroed. -/
def usrlFreshRing (slot_count slot_size : Nat) : RingDesc :=
  { slot_count := slot_count
    slot_size := slot_size
    w_head := 0
    slots := fun _ => default }

/-- A topic-table entry (`TopicEntry`).  The `.c` files additionally use a
ring type tag (`t->type`, set from the topic config in `usrl_core_init`
and checked by `usrl_mwmr_pub_init`); the copy of `usrl_core.h` in the
repository lags behind the `.c` files here, which are the authority.  The
name field is a fixed 64-byte NUL-terminated buffer; names are at most 63
characters, so the bounded `strncmp(., ., 64)` of `usrl_get_topic` agrees
with string equality. -/
structure TopicEntry where
  name : String
  ring_desc_offset : Nat
  ring_type : Nat
  slot_count : Nat
  slot_size : Nat
deriving Repr, DecidableEq

/-- The region header (`CoreHeader`). -/
structure CoreHeader where
  magic : Nat
  version : Nat
  mmap_size : Nat
  topic_table_offset : Nat
  topic_count : Nat
deriving Repr, DecidableEq

/-- A mapped region as `usrl_get_topic` sees it: the header at offset 0 and
the topic table that `topic_table_offset` points at. -/
structure Region where
  header : CoreHeader
  topics : List TopicEntry
deriving Repr, DecidableEq

/-- `usrl_get_topic` (usrl_core.c:335-352): reject a base whose header
magic differs from `USRL_MAGIC`, then scan the first `topic_count` table
entries for a name match.  The version field is not inspected. -/
def usrl_get_topic (r : Region) (name : String) : Option TopicEntry :=
  if r.header.magic ≠ USRL_MAGIC then none
  else (r.topics.take r.header.topic_count).find? (fun t => t.name == name)

/-- The facade subscriber handle (`struct usrl_sub` in usrl.c): the core
subscriber plus the API-layer counters. -/
structure UsrlSubHandle where
  core : UsrlSubscriber
  local_ops : Nat
  local_skips : Nat
deriving Repr, DecidableEq

/-- The caller-visible health snapshot (`usrl_health_t`) as filled in by
`usrl_sub_get_health`. -/
structure UsrlHealth where
  operations : Nat
  errors : Nat
  rate_hz : Nat
  lag : Nat
  healthy : Bool
deriving Repr, DecidableEq

/-- `usrl_swmr_total_published` (ring_swmr.c:340-346): the current write
head. -/
def usrl_swmr_total_published (d : RingDesc) : Nat := d.w_head

/-- `usrl_sub_get_health` (usrl.c:275-302) for a subscriber bound to ring
`d` (`sub->core.desc` non-NULL): operations from the local counter, errors
from local skips plus the core skip tracker, and lag computed from the
write head and the subscriber's cursor. -/
def usrl_sub_get_health (sub : UsrlSubHandle) (d : RingDesc) : UsrlHealth :=
  let operations := sub.local_ops
  let errors := sub.local_skips + sub.core.skipped_count
  let w_head := usrl_swmr_total_published d
  let my_seq := sub.core.last_seq
  let lag := if my_seq < w_head then w_head - my_seq else 0
  { operations := operations
    errors := errors
    rate_hz := 0
    lag := lag
    healthy := decide (lag < 100 ∧ errors = 0) }

/-- A region view for the two last-publish-timestamp queries, keeping the
byte-offset arithmetic explicit because the two implementations compute
different addresses.  `memSlot o` is the `SlotHeader` found at byte offset
`o` from the region base; the ring's slot `i` lives at
`base_offset + i * slot_size`, and `desc_offset` is where the `RingDesc`
itself sits (`t->ring_desc_offset`, strictly positive in a real region
since the header and topic table precede it). -/
structure RegionMem where
  desc_offset : Nat
  slot_count : Nat
  slot_size : Nat
  base_offset : Nat
  w_head : Nat
  memSlot : Nat → Slot

/-- The `last_publish_ns` computation of `usrl_health_get`
(usrl_health.c:38-54): when `head > 0`, read the slot header at
`base + d->base_offset + idx * slot_size` (region-base relative) and
report its timestamp only if that slot's `seq` equals `head`, else 0. -/
def usrl_health_get_last_publish_ns (r : RegionMem) : Nat :=
  let head := r.w_head
  if 0 < head then
    let idx := (head - 1) &&& (r.slot_count - 1)
    let hdr := r.memSlot (r.base_offset + idx * r.slot_size)
    if hdr.seq = head then hdr.timestamp_ns else 0
  else 0

/-- `usrl_swmr_last_publish_ns` (ring_swmr.c:349-366): when `w_head > 0`,
read the slot header at `(uint8_t *)d + d->base_offset + idx * slot_size`
— an address relative to the descriptor, not the region base — and return
its timestamp unconditionally. -/
def usrl_swmr_last_publish_ns (r : RegionMem) : Nat :=
  let w_head := r.w_head
  if w_head = 0 then 0
  else
    let idx := (w_head - 1) &&& (r.slot_count - 1)
    (r.memSlot (r.desc_offset + r.base_offset + idx * r.slot_size)).timestamp_ns

/-- The sequence value held by slot `i` of a ring with `slot_count = n`
after `m` sequential successful publishes: commits to slot `i` are exactly
the sequences `c` with `(c - 1) % n = i`, so the latest one not exceeding
`m` is `i + 1 + n * ((m - (i + 1)) / n)`, and the slot still holds 0 when
no commit has reached it yet. -/
def slotSeqAfter (n m i : Nat) : Nat :=
  if i + 1 ≤ m then i + 1 + n * ((m - (i + 1)) / n) else 0

/-- The per-slot sequence invariant of a sequentially-driven ring: the ring
looks exactly like a fresh ring after `w_head` publishes. -/
def SeqInv (d : RingDesc) : Prop :=
  ∀ i, i < d.slot_count → (d.slots i).seq = slotSeqAfter d.slot_count d.w_head i

/-- A small SWMR ring holding one committed message (sequence 1, payload
`[65]`), with a behind-but-not-lapped subscriber scenario in mind:
`slot_count = 4`, `slot_size = 32` (payload capacity 8). -/
def c1Ring : RingDesc :=
  { slot_count := 4
    slot_size := 32
    w_head := 1
    slots := fun j => if j = 0 then ⟨1, 0, 1, 7, [65]⟩ else default }

/-- A ring whose writer has lapped an idle subscriber: `slot_count = 4`,
`w_head = 10`; the slot for sequence 7 (index 2) still holds its
generation-0 value 3, as happens when that writer's commit is in flight. -/
def c3Ring : RingDesc :=
  { slot_count := 4
    slot_size := 32
    w_head := 10
    slots := fun j =>
      if j = 0 then ⟨9, 0, 1, 1, [65]⟩
      else if j = 1 then ⟨10, 0, 1, 1, [66]⟩
      else if j = 2 then ⟨3, 0, 1, 1, [67]⟩
      else ⟨8, 0, 1, 1, [68]⟩ }

/-- A ring with one committed 5-byte message pending for a subscriber whose
buffer will be too small. -/
def c7Ring : RingDesc :=
  { slot_count := 4
    slot_size := 32
    w_head := 1
    slots := fun j => if j = 0 then ⟨1, 0, 5, 7, [1, 2, 3, 4, 5]⟩ else default }

/-- A region whose header carries the right magic but an unsupported
version (2), with one topic named `a`. -/
def c8Region : Region :=
  { header := ⟨USRL_MAGIC, 2, 4096, 64, 1⟩
    topics := [⟨"a", 192, 0, 16, 64⟩] }

/-- A region whose header magic is wrong. -/
def c8BadMagicRegion : Region :=
  { header := ⟨0, 1, 4096, 64, 1⟩
    topics := [⟨"a", 192, 0, 16, 64⟩] }

/-- A realistic region state for the timestamp queries: the descriptor sits
at offset 192, the single slot at offset 256 holds committed sequence 1
with timestamp 7; the bytes at the address `usrl_swmr_last_publish_ns`
actually reads (192 + 256) are unrelated memory (zero). -/
def c10BadRegion : RegionMem :=
  { desc_offset := 192
    slot_count := 1
    slot_size := 64
    base_offset := 256
    w_head := 1
    memSlot := fun o => if o = 256 then ⟨1, 7, 1, 1, [65]⟩ else default }

/-- The same region state with the descriptor offset artificially 0, so
both queries read the same slot header. -/
def c10GoodRegion : RegionMem :=
  { desc_offset := 0
    slot_count := 1
    slot_size := 64
    base_offset := 256
    w_head := 1
    memSlot := fun o => if o = 256 then ⟨1, 7, 1, 1, [65]⟩ else default }

/-! ## Helper lemmas -/

/-- Masking with `2^e - 1` is reduction modulo `2^e`; this is how the ring
code's `(x) & mask` indexes relate to arithmetic modulo `slot_count`. -/
theorem land_pow_two_sub_one (x e : Nat) : x &&& (2 ^ e - 1) = x % 2 ^ e := by
  apply Nat.eq_of_testBit_eq
  intro i
  rw [Nat.testBit_and, Nat.testBit_mod_two_pow, Nat.testBit_two_pow_sub_one]
  rw [Bool.and_comm]

/-- For slot sizes of at least a header (every ring built by
`usrl_core_init` satisfies this), the wrapped capacity computation is the
plain difference. -/
theorem slotCapacity_eq (ss : Nat) (h1 : slotHeaderSize ≤ ss)
    (h2 : ss < 2 ^ 64) : slotCapacity ss = ss - slotHeaderSize := by
  unfold slotCapacity slotHeaderSize at *
  have hp : (2 : Nat) ^ 64 = 18446744073709551616 := by norm_num
  rw [hp] at h2 ⊢
  omega

/-! ## C9: subscriber lag in the health snapshot -/

/-- C9: the health snapshot a subscriber obtains (`usrl_sub_get_health`,
the health query that has a querying subscriber) reports a lag equal to
`w_head - last_seq` when that difference is positive and 0 otherwise. -/
theorem sub_health_lag_eq (sub : UsrlSubHandle) (d : RingDesc) :
    ((usrl_sub_get_health sub d).lag : Int)
      = max ((d.w_head : Int) - (sub.core.last_seq : Int)) 0 := by
  unfold usrl_sub_get_health usrl_swmr_total_published
  dsimp only
  split <;> omega

/-! ## C6: payload-too-large check -/

/-- C6: both publish paths reject with the payload-too-large code exactly
when `len > slot_size - sizeof(SlotHeader)`; in particular a payload of
exactly the capacity is accepted and one byte more is rejected. -/
theorem publish_too_large_iff (p : UsrlPublisher) (pm : UsrlMwmrPublisher)
    (d : RingDesc) (data : List Nat) (now : Nat) (obs : Nat → Nat)
    (hhdr : slotHeaderSize ≤ d.slot_size) (hsz : d.slot_size < 2 ^ 32) :
    ((usrl_pub_publish p d data now).2 = USRL_RING_FULL
        ↔ d.slot_size - slotHeaderSize < data.length)
    ∧ ((usrl_mwmr_pub_publish_obs pm d data now obs).2 = USRL_RING_FULL
        ↔ d.slot_size - slotHeaderSize < data.length) := by
  have hsz64 : d.slot_size < 2 ^ 64 := lt_trans hsz (by norm_num)
  have hcap : slotCapacity d.slot_size = d.slot_size - slotHeaderSize :=
    slotCapacity_eq _ hhdr hsz64
  constructor
  · unfold usrl_pub_publish
    rw [hcap]
    split
    · simpa [USRL_RING_FULL] using ‹d.slot_size - slotHeaderSize < data.length›
    · simp only []
      constructor
      · intro h; exact absurd h (by simp [USRL_RING_FULL])
      · intro h; exact absurd h ‹¬d.slot_size - slotHeaderSize < data.length›
  · unfold usrl_mwmr_pub_publish_obs
    rw [hcap]
    split
    · simpa [USRL_RING_FULL] using ‹d.slot_size - slotHeaderSize < data.length›
    · constructor
      · intro h
        exfalso
        rcases hw : mwmrWaitGo obs (d.w_head + 1) d.slot_count (mwmrMaxIter + 2) 0 with t | _ | _ <;>
          simp [hw, USRL_RING_FULL, USRL_RING_OK, USRL_RING_TIMEOUT] at h
      · intro h; exact absurd h ‹¬d.slot_size - slotHeaderSize < data.length›

/-- Witness for C6 at a concrete ring (`slot_size = 32`, capacity 8):
a 9-byte payload is rejected by both publish paths, an 8-byte one by
neither. -/
theorem publish_too_large_iff_witness :
    ((usrl_pub_publish ⟨1⟩ c1Ring [0, 1, 2, 3, 4, 5, 6, 7, 8] 0).2 = USRL_RING_FULL
        ↔ c1Ring.slot_size - slotHeaderSize < ([0, 1, 2, 3, 4, 5, 6, 7, 8] : List Nat).length)
    ∧ ((usrl_mwmr_pub_publish_obs ⟨1⟩ c1Ring [0, 1, 2, 3, 4, 5, 6, 7, 8] 0 (fun _ => 0)).2 = USRL_RING_FULL
        ↔ c1Ring.slot_size - slotHeaderSize < ([0, 1, 2, 3, 4, 5, 6, 7, 8] : List Nat).length) :=
  publish_too_large_iff ⟨1⟩ ⟨1⟩ c1Ring [0, 1, 2, 3, 4, 5, 6, 7, 8] 0 (fun _ => 0)
    (by decide) (by show (32 : Nat) < 2 ^ 32; norm_num)

/-! ## C8: topic lookup rejects foreign regions -/

/-- C8 counterexample: a region whose header magic matches but whose
version is 2 (not the supported 1) is still accepted by `usrl_get_topic`,
refuting the claim that a version mismatch makes lookup return none. -/
theorem get_topic_version_counterexample :
    c8Region.header.magic = USRL_MAGIC
    ∧ c8Region.header.version ≠ 1
    ∧ usrl_get_topic c8Region "a" ≠ none := by decide

/-- C8 (amended): `usrl_get_topic` returns none whenever the header magic
differs from `USRL_MAGIC`, and any entry it returns comes from the topic
table with a matching name under a matching magic; the version field is not
checked. -/
theorem get_topic_checks_magic (r : Region) (name : String) :
    (r.header.magic ≠ USRL_MAGIC → usrl_get_topic r name = none)
    ∧ (∀ t, usrl_get_topic r name = some t →
        r.header.magic = USRL_MAGIC ∧ t ∈ r.topics ∧ t.name = name) := by
  constructor
  · intro h
    unfold usrl_get_topic
    rw [if_pos h]
  · intro t h
    unfold usrl_get_topic at h
    by_cases hm : r.header.magic ≠ USRL_MAGIC
    · rw [if_pos hm] at h
      cases h
    · rw [if_neg hm] at h
      refine ⟨not_not.mp hm, ?_, ?_⟩
      · exact List.take_subset _ _ (List.mem_of_find?_eq_some h)
      · have := List.find?_some h
        simpa using this

/-- Witness for C8's amended theorem: lookup on a region with a wrong magic
returns none. -/
theorem get_topic_checks_magic_witness :
    usrl_get_topic c8BadMagicRegion "a" = none :=
  (get_topic_checks_magic c8BadMagicRegion "a").1 (by decide)

/-! ## C10: the two last-publish-timestamp queries -/

/-- C10 counterexample: on a realistic region state the two
implementations disagree — `usrl_health_get` reads the committed head slot
(timestamp 7) while `usrl_swmr_last_publish_ns` reads at an address
additionally offset by the descriptor's own position and returns 0. -/
theorem last_publish_ns_counterexample :
    usrl_health_get_last_publish_ns c10BadRegion = 7
    ∧ usrl_swmr_last_publish_ns c10BadRegion = 0
    ∧ usrl_swmr_last_publish_ns c10BadRegion
        ≠ usrl_health_get_last_publish_ns c10BadRegion := by decide

/-- C10 (amended): the two queries agree when the descriptor-relative
addressing coincides with region-base addressing (`desc_offset = 0`) and
the head slot's sequence equals `w_head` (or nothing was published);
`usrl_health_get` additionally gates the timestamp to 0 when the head
slot's sequence differs, while `usrl_swmr_last_publish_ns` does not. -/
theorem last_publish_ns_agree (r : RegionMem)
    (hdesc : r.desc_offset = 0)
    (hgate : r.w_head = 0 ∨
      (r.memSlot (r.base_offset
          + ((r.w_head - 1) &&& (r.slot_count - 1)) * r.slot_size)).seq
        = r.w_head) :
    usrl_swmr_last_publish_ns r = usrl_health_get_last_publish_ns r := by
  unfold usrl_swmr_last_publish_ns usrl_health_get_last_publish_ns
  dsimp only
  rcases hgate with h0 | hseq
  · simp [h0]
  · by_cases hw : r.w_head = 0
    · simp [hw]
    · rw [if_neg hw, if_pos (Nat.pos_of_ne_zero hw), hdesc, Nat.zero_add,
        if_pos hseq]

/-- Witness for C10's amended theorem on a concrete region with the
descriptor offset 0 and a committed head slot. -/
theorem last_publish_ns_agree_witness :
    usrl_swmr_last_publish_ns c10GoodRegion
      = usrl_health_get_last_publish_ns c10GoodRegion :=
  last_publish_ns_agree c10GoodRegion rfl (Or.inr (by decide))

/-! ## C4 and C5: the MWMR wait loop -/

/-- The wait loop can only break at a load numbered at or after the one it
starts from. -/
theorem mwmrWaitGo_free_ge (obs : Nat → Nat) (cs n : Nat) :
    ∀ fuel iter t, mwmrWaitGo obs cs n fuel iter = .free t → iter ≤ t := by
  intro fuel
  induction fuel with
  | zero => intro iter t h; simp [mwmrWaitGo] at h
  | succ fuel ih =>
    intro iter t h
    rw [mwmrWaitGo] at h
    by_cases hfree : mwmrFree (obs iter) cs n = true
    · rw [if_pos hfree] at h
      cases h
      exact le_refl _
    · rw [if_neg hfree] at h
      by_cases htime : mwmrMaxIter < iter + 1
      · rw [if_pos htime] at h; cases h
      · rw [if_neg htime] at h
        exact le_trans (Nat.le_succ _) (ih (iter + 1) t h)

/-- C4: the MWMR wait loop treats the slot as free exactly when the loaded
sequence is 0 or belongs to an older generation, and for every sequence
value that can actually occupy the reserved slot (congruent to
`commit_seq` modulo `slot_count`, committed and older), the spec's two
formulations `seq < commit_seq - slot_count + 1` and
`seq / slot_count < commit_seq / slot_count` are equivalent. -/
theorem mwmr_free_condition (seq commit_seq n : Nat)
    (hn : 0 < n) (hcong : seq % n = commit_seq % n)
    (hpos : 0 < seq) (hlt : seq < commit_seq) :
    (∀ (obs : Nat → Nat) (fuel iter : Nat),
        mwmrWaitGo obs commit_seq n (fuel + 1) iter = .free iter
          ↔ (obs iter = 0 ∨ obs iter / n < commit_seq / n))
    ∧ (seq < commit_seq - n + 1 ↔ seq / n < commit_seq / n) := by
  constructor
  · intro obs fuel iter
    constructor
    · intro h
      rw [mwmrWaitGo] at h
      by_cases hfree : mwmrFree (obs iter) commit_seq n = true
      · simpa [mwmrFree] using hfree
      · rw [if_neg hfree] at h
        by_cases htime : mwmrMaxIter < iter + 1
        · rw [if_pos htime] at h; cases h
        · rw [if_neg htime] at h
          have := mwmrWaitGo_free_ge obs commit_seq n fuel (iter + 1) iter h
          omega
    · intro h
      have hfree : mwmrFree (obs iter) commit_seq n = true := by
        simpa [mwmrFree] using h
      rw [mwmrWaitGo, if_pos hfree]
  · have hdvd : n ∣ commit_seq - seq :=
      (Nat.modEq_iff_dvd' (le_of_lt hlt)).mp hcong
    have hge : seq + n ≤ commit_seq := by
      have h1 : 0 < commit_seq - seq := by omega
      have := Nat.le_of_dvd h1 hdvd
      omega
    have hdiv : seq / n < commit_seq / n := by
      have h1 : (seq + n) / n = seq / n + 1 := Nat.add_div_right seq hn
      have h2 : (seq + n) / n ≤ commit_seq / n := Nat.div_le_div_right hge
      omega
    exact iff_of_true (by omega) hdiv

/-- Witness for C4 at `seq = 3`, `commit_seq = 7`, `slot_count = 4`. -/
theorem mwmr_free_condition_witness :
    (3 : Nat) < 7 - 4 + 1 ↔ (3 : Nat) / 4 < 7 / 4 :=
  (mwmr_free_condition 3 7 4 (by decide) (by decide) (by decide)
    (by decide)).2

/-- Full behaviour of the wait loop under a budget-sufficient fuel: either
it breaks at some load within the spin budget, or every load within the
budget saw a busy slot and it times out. -/
theorem mwmrWaitGo_spec (obs : Nat → Nat) (cs n : Nat) :
    ∀ fuel iter, iter ≤ mwmrMaxIter → mwmrMaxIter + 1 - iter ≤ fuel →
      (∃ t, iter ≤ t ∧ t ≤ mwmrMaxIter ∧ mwmrFree (obs t) cs n = true
          ∧ mwmrWaitGo obs cs n fuel iter = .free t)
      ∨ (mwmrWaitGo obs cs n fuel iter = .timeout
          ∧ ∀ t, iter ≤ t → t ≤ mwmrMaxIter → mwmrFree (obs t) cs n = false) := by
  intro fuel
  induction fuel with
  | zero =>
    intro iter h1 h2
    unfold mwmrMaxIter at h1 h2
    omega
  | succ fuel ih =>
    intro iter h1 h2
    by_cases hfree : mwmrFree (obs iter) cs n = true
    · exact Or.inl ⟨iter, le_refl _, h1, hfree, by rw [mwmrWaitGo, if_pos hfree]⟩
    · by_cases htime : mwmrMaxIter < iter + 1
      · refine Or.inr ⟨by rw [mwmrWaitGo, if_neg hfree, if_pos htime], ?_⟩
        intro t ht1 ht2
        have : t = iter := by omega
        subst this
        exact Bool.not_eq_true _ ▸ hfree
      · have hrec := ih (iter + 1) (by omega) (by unfold mwmrMaxIter at h2 ⊢; omega)
        rcases hrec with ⟨t, ht1, ht2, ht3, ht4⟩ | ⟨hto, hall⟩
        · exact Or.inl ⟨t, by omega, ht2, ht3,
            by rw [mwmrWaitGo, if_neg hfree, if_neg htime]; exact ht4⟩
        · refine Or.inr ⟨by rw [mwmrWaitGo, if_neg hfree, if_neg htime]; exact hto, ?_⟩
          intro t ht1 ht2
          rcases Nat.eq_or_lt_of_le ht1 with heq | hlt
          · subst heq
            exact Bool.not_eq_true _ ▸ hfree
          · exact hall t (by omega) ht2

/-- C5: `usrl_mwmr_pub_publish` always terminates within the spin budget:
with a fitting payload it either commits after some load `t ≤ 100000` that
found the slot free, or — when no load within the budget finds the slot
free — returns the `Timeout` error; in particular the result is a total
function of the handle, the payload and the observed slot states. -/
theorem mwmr_publish_bounded_spin (pm : UsrlMwmrPublisher) (d : RingDesc)
    (data : List Nat) (now : Nat) (obs : Nat → Nat)
    (hfit : data.length ≤ slotCapacity d.slot_size) :
    (∃ t, t ≤ mwmrMaxIter
        ∧ mwmrFree (obs t) (d.w_head + 1) d.slot_count = true
        ∧ (usrl_mwmr_pub_publish_obs pm d data now obs).2 = USRL_RING_OK)
    ∨ ((usrl_mwmr_pub_publish_obs pm d data now obs).2 = USRL_RING_TIMEOUT
        ∧ ∀ t, t ≤ mwmrMaxIter →
            mwmrFree (obs t) (d.w_head + 1) d.slot_count = false) := by
  have hspec := mwmrWaitGo_spec obs (d.w_head + 1) d.slot_count
    (mwmrMaxIter + 2) 0 (Nat.zero_le _) (by unfold mwmrMaxIter; omega)
  unfold usrl_mwmr_pub_publish_obs
  rw [if_neg (not_lt.mpr hfit)]
  dsimp only
  rcases hspec with ⟨t, _, ht2, ht3, ht4⟩ | ⟨hto, hall⟩
  · exact Or.inl ⟨t, ht2, ht3, by rw [ht4]⟩
  · refine Or.inr ⟨by rw [hto], ?_⟩
    intro t ht
    exact hall t (Nat.zero_le _) ht

/-- Witness for C5 on a concrete ring where the first load already finds
the slot free. -/
theorem mwmr_publish_bounded_spin_witness :
    (∃ t, t ≤ mwmrMaxIter
        ∧ mwmrFree ((fun _ => 0) t) (c1Ring.w_head + 1) c1Ring.slot_count = true
        ∧ (usrl_mwmr_pub_publish_obs ⟨2⟩ c1Ring [66] 0 (fun _ => 0)).2 = USRL_RING_OK)
    ∨ ((usrl_mwmr_pub_publish_obs ⟨2⟩ c1Ring [66] 0 (fun _ => 0)).2 = USRL_RING_TIMEOUT
        ∧ ∀ t, t ≤ mwmrMaxIter →
            mwmrFree ((fun _ => 0) t) (c1Ring.w_head + 1) c1Ring.slot_count = false) :=
  mwmr_publish_bounded_spin ⟨2⟩ c1Ring [66] 0 (fun _ => 0) (by decide)

/-! ## C7: truncation and no redelivery -/

/-- The slot-read tail never moves the cursor backwards, and a successful
delivery leaves the cursor exactly on the delivered sequence. -/
theorem usrl_sub_read_mono (s : UsrlSubscriber) (d : RingDesc)
    (next bufLen w_head : Nat)
    (hns : next = s.last_seq + 1) (hwh : next ≤ w_head) :
    s.last_seq ≤ (usrl_sub_read s d next bufLen w_head).sub.last_seq
    ∧ (0 < (usrl_sub_read s d next bufLen w_head).ret →
        (usrl_sub_read s d next bufLen w_head).sub.last_seq = next) := by
  unfold usrl_sub_read
  dsimp only
  split_ifs with h1 h2 h3 h4 <;> dsimp only <;> constructor <;> omega

/-- `usrl_sub_next` never moves the cursor backwards, and a successful
delivery strictly advances it (the delivered frame's sequence is the new
cursor value). -/
theorem usrl_sub_next_mono (s : UsrlSubscriber) (d : RingDesc) (bufLen : Nat) :
    s.last_seq ≤ (usrl_sub_next s d bufLen).sub.last_seq
    ∧ (0 < (usrl_sub_next s d bufLen).ret →
        s.last_seq < (usrl_sub_next s d bufLen).sub.last_seq) := by
  unfold usrl_sub_next
  dsimp only
  split_ifs with h1 h2 h3
  · exact ⟨le_refl _, by intro h; simp at h⟩
  · dsimp only
    constructor
    · omega
    · intro h; simp at h
  · -- lag jump, then slot read
    have hmono := usrl_sub_read_mono
      ⟨d.w_head - d.slot_count + 1 - 1, s.skipped_count⟩ d
      (d.w_head - d.slot_count + 1) bufLen d.w_head
      (by show d.w_head - d.slot_count + 1 = d.w_head - d.slot_count + 1 - 1 + 1
          omega)
      (by omega)
    constructor
    · refine le_trans ?_ hmono.1
      show s.last_seq ≤ d.w_head - d.slot_count + 1 - 1
      omega
    · intro h
      have h2' := hmono.2 h
      omega
  · have hmono := usrl_sub_read_mono s d (s.last_seq + 1) bufLen d.w_head
      rfl (by omega)
    exact ⟨hmono.1, fun h => by have := hmono.2 h; omega⟩

/-- C7: when `usrl_sub_next` reaches a committed slot (`seq = next`) whose
payload exceeds the caller's buffer, it advances `last_seq` to `next`,
copies nothing and returns `Truncated`; and from any later subscriber
state the cursor never returns to `next`, so a subsequent call never
delivers that sequence again (a delivery leaves the cursor on the
delivered sequence, which is then strictly greater). -/
theorem truncated_advances_and_never_redelivers (s : UsrlSubscriber)
    (d : RingDesc) (bufLen : Nat)
    (hdata : s.last_seq + 1 ≤ d.w_head)
    (hkeep : d.w_head - (s.last_seq + 1) < d.slot_count)
    (hseq : (d.slots (s.last_seq &&& (d.slot_count - 1))).seq = s.last_seq + 1)
    (htrunc : bufLen < (d.slots (s.last_seq &&& (d.slot_count - 1))).payload_len) :
    (usrl_sub_next s d bufLen).ret = USRL_RING_TRUNC
    ∧ (usrl_sub_next s d bufLen).sub.last_seq = s.last_seq + 1
    ∧ (usrl_sub_next s d bufLen).out = []
    ∧ (∀ (s' : UsrlSubscriber) (d' : RingDesc) (bl : Nat),
        s.last_seq + 1 ≤ s'.last_seq →
          s'.last_seq ≤ (usrl_sub_next s' d' bl).sub.last_seq
          ∧ (0 < (usrl_sub_next s' d' bl).ret →
              s.last_seq + 1 < (usrl_sub_next s' d' bl).sub.last_seq)) := by
  have hread : usrl_sub_next s d bufLen
      = ⟨{ s with last_seq := s.last_seq + 1 }, -3, [], none⟩ := by
    unfold usrl_sub_next
    rw [if_neg (by omega), if_neg (by omega)]
    unfold usrl_sub_read
    dsimp only
    rw [Nat.add_sub_cancel]
    rw [if_neg (by rw [hseq]; omega), if_neg (by rw [hseq]; omega),
      if_pos htrunc]
  refine ⟨by rw [hread]; rfl, by rw [hread], by rw [hread], ?_⟩
  intro s' d' bl hge
  have hmono := usrl_sub_next_mono s' d' bl
  exact ⟨hmono.1, fun h => by have := hmono.2 h; omega⟩

/-- Witness for C7 on a concrete ring: a pending 5-byte frame against a
4-byte buffer is truncated and the cursor advances past it. -/
theorem truncated_advances_and_never_redelivers_witness :
    (usrl_sub_next ⟨0, 0⟩ c7Ring 4).ret = USRL_RING_TRUNC
    ∧ (usrl_sub_next ⟨0, 0⟩ c7Ring 4).sub.last_seq = 1 :=
  ⟨(truncated_advances_and_never_redelivers ⟨0, 0⟩ c7Ring 4 (by decide)
      (by decide) (by decide) (by decide)).1,
    (truncated_advances_and_never_redelivers ⟨0, 0⟩ c7Ring 4 (by decide)
      (by decide) (by decide) (by decide)).2.1⟩

/-! ## C1: publish/next round trip -/

/-- C1 counterexample: a subscriber that satisfies the claim's keeping-up
condition `w_head - last_seq < slot_count` but has not yet consumed the
earlier message receives that earlier message from `usrl_sub_next`, not
the just-published bytes `b = [66, 67]`: both before and after the publish
the condition holds, the publish succeeds, yet the call returns length 1
and payload `[65]`. -/
theorem roundtrip_counterexample :
    ([66, 67] : List Nat).length ≤ slotCapacity c1Ring.slot_size
    ∧ c1Ring.w_head - (⟨0, 0⟩ : UsrlSubscriber).last_seq < c1Ring.slot_count
    ∧ (usrl_pub_publish ⟨9⟩ c1Ring [66, 67] 5).1.w_head
        - (⟨0, 0⟩ : UsrlSubscriber).last_seq < c1Ring.slot_count
    ∧ (usrl_pub_publish ⟨9⟩ c1Ring [66, 67] 5).2 = 0
    ∧ (usrl_sub_next ⟨0, 0⟩ (usrl_pub_publish ⟨9⟩ c1Ring [66, 67] 5).1 16).ret
        ≠ (([66, 67] : List Nat).length : Int)
    ∧ (usrl_sub_next ⟨0, 0⟩ (usrl_pub_publish ⟨9⟩ c1Ring [66, 67] 5).1 16).out
        ≠ [66, 67] := by decide

/-- C1 (amended): on a power-of-two ring, for a payload within the slot
capacity and an output buffer that holds it, if the subscriber has
consumed every previously published message (`last_seq = w_head`), then a
publish followed by `usrl_sub_next` returns the payload length and the
output bytes equal the payload byte-for-byte. -/
theorem publish_next_roundtrip (e : Nat) (p : UsrlPublisher)
    (s : UsrlSubscriber) (d : RingDesc) (data : List Nat) (now bufLen : Nat)
    (hpow : d.slot_count = 2 ^ e)
    (hfit : data.length ≤ slotCapacity d.slot_size)
    (hbuf : data.length ≤ bufLen)
    (hsync : s.last_seq = d.w_head) :
    (usrl_pub_publish p d data now).2 = 0
    ∧ (usrl_sub_next s (usrl_pub_publish p d data now).1 bufLen).ret
        = (data.length : Int)
    ∧ (usrl_sub_next s (usrl_pub_publish p d data now).1 bufLen).out = data
    ∧ (usrl_sub_next s (usrl_pub_publish p d data now).1 bufLen).sub.last_seq
        = d.w_head + 1 := by
  have hn : 0 < d.slot_count := by
    rw [hpow]
    exact pow_pos (by norm_num) e
  unfold usrl_pub_publish
  rw [if_neg (not_lt.mpr hfit)]
  unfold usrl_sub_next usrl_sub_read
  dsimp only
  rw [hsync, Nat.add_sub_cancel]
  rw [if_neg (lt_irrefl (d.w_head + 1))]
  rw [if_neg (show ¬ d.slot_count ≤ d.w_head + 1 - (d.w_head + 1) by omega)]
  try dsimp only
  rw [if_pos rfl]
  try dsimp only
  rw [if_neg (by omega : ¬(d.w_head + 1 = 0 ∨ d.w_head + 1 < d.w_head + 1))]
  rw [if_neg (lt_irrefl (d.w_head + 1))]
  rw [if_neg (not_lt.mpr hbuf)]
  rw [if_neg (show ¬ d.w_head + 1 ≠ d.w_head + 1 by simp)]
  try dsimp only
  exact ⟨rfl, rfl, List.take_length data, rfl⟩

/-- Witness for C1's amended theorem: a caught-up subscriber on `c1Ring`
reads back exactly the two published bytes. -/
theorem publish_next_roundtrip_witness :
    (⟨1, 0⟩ : UsrlSubscriber).last_seq = c1Ring.w_head
    ∧ (usrl_sub_next ⟨1, 0⟩ (usrl_pub_publish ⟨9⟩ c1Ring [66, 67] 5).1 16).ret
        = (([66, 67] : List Nat).length : Int)
    ∧ (usrl_sub_next ⟨1, 0⟩ (usrl_pub_publish ⟨9⟩ c1Ring [66, 67] 5).1 16).out
        = [66, 67] :=
  ⟨rfl,
    (publish_next_roundtrip 2 ⟨9⟩ ⟨1, 0⟩ c1Ring [66, 67] 5 16 (by decide)
      (by decide) (by decide) rfl).2.1,
    (publish_next_roundtrip 2 ⟨9⟩ ⟨1, 0⟩ c1Ring [66, 67] 5 16 (by decide)
      (by decide) (by decide) rfl).2.2.1⟩

/-! ## C3: lag jump and the skip counter -/

/-- C3: on a lapped subscriber (`w_head = 10`, `last_seq = 0`,
`slot_count = 4`) the lag jump advances `last_seq` to
`w_head - slot_count = 6` exactly as specified, but the gap of 6 skipped
messages is not added to the handle's `skipped_count` field: no code path
in the repository ever writes that field, so it stays at its initial
value. -/
theorem lag_jump_skip_counter_untouched :
    (usrl_sub_next ⟨0, 0⟩ c3Ring 64).sub.last_seq
        = c3Ring.w_head - c3Ring.slot_count
    ∧ (usrl_sub_next ⟨0, 0⟩ c3Ring 64).ret = 0
    ∧ c3Ring.w_head - c3Ring.slot_count - (⟨0, 0⟩ : UsrlSubscriber).last_seq = 6
    ∧ (usrl_sub_next ⟨0, 0⟩ c3Ring 64).sub.skipped_count
        = (⟨0, 0⟩ : UsrlSubscriber).skipped_count := by decide

/-! ## C2: monotonic per-slot commits -/

/-- A fresh ring has never committed anything. -/
theorem slotSeqAfter_zero (n i : Nat) : slotSeqAfter n 0 i = 0 := by
  unfold slotSeqAfter
  rw [if_neg (by omega)]

/-- A slot never holds a sequence beyond the number of publishes. -/
theorem slotSeqAfter_le (n m i : Nat) : slotSeqAfter n m i ≤ m := by
  unfold slotSeqAfter
  split
  · have h1 : n * ((m - (i + 1)) / n) ≤ m - (i + 1) := by
      rw [Nat.mul_comm]
      exact Nat.div_mul_le_self _ _
    omega
  · omega

/-- A slot's sequence is zero exactly while no commit has reached it:
commits to slot `i` are the sequences `i + 1, i + 1 + n, …`. -/
theorem slotSeqAfter_eq_zero_iff (n m i : Nat) :
    slotSeqAfter n m i = 0 ↔ m < i + 1 := by
  unfold slotSeqAfter
  split
  · generalize n * ((m - (i + 1)) / n) = k
    omega
  · omega

/-- The `m + 1`-st publish lands in slot `m % n` and leaves sequence
`m + 1` there. -/
theorem slotSeqAfter_succ_self (n m : Nat) (hn : 0 < n) :
    slotSeqAfter n (m + 1) (m % n) = m + 1 := by
  unfold slotSeqAfter
  have hle : m % n ≤ m := Nat.mod_le m n
  rw [if_pos (by omega)]
  have he : m + 1 - (m % n + 1) = n * (m / n) := by
    have := Nat.div_add_mod m n
    omega
  rw [he, Nat.mul_div_cancel_left _ hn]
  have := Nat.div_add_mod m n
  omega

/-- All other slots are untouched by the `m + 1`-st publish. -/
theorem slotSeqAfter_succ_ne (n m i : Nat) (hi : i < n) (hne : i ≠ m % n) :
    slotSeqAfter n (m + 1) i = slotSeqAfter n m i := by
  unfold slotSeqAfter
  by_cases h1 : i + 1 ≤ m
  · rw [if_pos (by omega), if_pos h1]
    have hnd : ¬ n ∣ m - i := by
      intro hd
      have hmod : i % n = m % n := (Nat.modEq_iff_dvd' (by omega : i ≤ m)).mpr hd
      rw [Nat.mod_eq_of_lt hi] at hmod
      exact hne hmod
    have he : m + 1 - (i + 1) = m - (i + 1) + 1 := by omega
    rw [he, Nat.succ_div]
    have he2 : m - (i + 1) + 1 = m - i := by omega
    rw [he2, if_neg hnd]
    simp
  · by_cases h2 : i + 1 ≤ m + 1
    · exfalso
      have hieq : i = m := by omega
      subst hieq
      exact hne ((Nat.mod_eq_of_lt hi).symm)
    · rw [if_neg h2, if_neg h1]

/-- The value the head slot holds just before it is overwritten: zero on
the ring's first lap, `m + 1 - n` afterwards. -/
theorem slotSeqAfter_at_head (n m : Nat) (hn : 0 < n) :
    slotSeqAfter n m (m % n) = if m < n then 0 else m + 1 - n := by
  by_cases hm : m < n
  · rw [if_pos hm]
    unfold slotSeqAfter
    rw [Nat.mod_eq_of_lt hm, if_neg (by omega)]
  · rw [if_neg hm]
    push_neg at hm
    unfold slotSeqAfter
    have hmod : m % n < n := Nat.mod_lt m hn
    rw [if_pos (by omega)]
    obtain ⟨q, hq⟩ : ∃ q, m / n = q + 1 := by
      have : 1 ≤ m / n := (Nat.one_le_div_iff hn).mpr hm
      exact ⟨m / n - 1, by omega⟩
    have hdm := Nat.div_add_mod m n
    rw [hq] at hdm
    have hnq : n * (q + 1) = n * q + n := by ring
    have he : m - (m % n + 1) = n * q + (n - 1) := by omega
    rw [he]
    have hdiv : (n * q + (n - 1)) / n = q := by
      rw [Nat.add_comm, Nat.add_mul_div_left _ _ hn, Nat.div_eq_of_lt (by omega)]
      omega
    rw [hdiv]
    omega

/-- Committing sequence `w_head + 1` into the head slot preserves the
per-slot sequence invariant. -/
theorem seqInv_commit (d : RingDesc) (ns : Slot) (e : Nat)
    (hpow : d.slot_count = 2 ^ e) (hinv : SeqInv d)
    (hns : ns.seq = d.w_head + 1) :
    SeqInv { d with
      w_head := d.w_head + 1
      slots := fun j =>
        if j = d.w_head &&& (d.slot_count - 1) then ns else d.slots j } := by
  have hn : 0 < d.slot_count := by
    rw [hpow]
    exact pow_pos (by norm_num) e
  have hidx : d.w_head &&& (d.slot_count - 1) = d.w_head % d.slot_count := by
    rw [hpow]
    exact land_pow_two_sub_one _ e
  intro i hi
  dsimp only at hi ⊢
  by_cases hcase : i = d.w_head &&& (d.slot_count - 1)
  · rw [if_pos hcase, hns, hcase, hidx]
    exact (slotSeqAfter_succ_self d.slot_count d.w_head hn).symm
  · rw [if_neg hcase, hinv i hi]
    have hne : i ≠ d.w_head % d.slot_count := by
      rw [← hidx]
      exact hcase
    exact (slotSeqAfter_succ_ne d.slot_count d.w_head i hi hne).symm

/-- C2: on a power-of-two ring whose slots carry the sequence history of
its publishes (`SeqInv`, which a fresh ring satisfies), a slot's sequence
counter is zero exactly until the first commit reaches it, and both the
SWMR and the MWMR publish commit `w_head + 1` into the head slot —
strictly greater than the slot's previous value and exceeding it by
exactly `slot_count` whenever the slot had been committed before — while
preserving the invariant. -/
theorem slot_seq_monotonic (e : Nat) (p : UsrlPublisher)
    (pm : UsrlMwmrPublisher) (d : RingDesc) (data : List Nat) (now : Nat)
    (hpow : d.slot_count = 2 ^ e) (hinv : SeqInv d)
    (hfit : data.length ≤ slotCapacity d.slot_size) :
    (∀ n ss : Nat, SeqInv (usrlFreshRing n ss))
    ∧ (∀ i, i < d.slot_count → ((d.slots i).seq = 0 ↔ d.w_head < i + 1))
    ∧ (usrl_pub_publish p d data now).2 = 0
    ∧ ((usrl_pub_publish p d data now).1.slots
        (d.w_head % d.slot_count)).seq = d.w_head + 1
    ∧ SeqInv (usrl_pub_publish p d data now).1
    ∧ ((d.slots (d.w_head % d.slot_count)).seq = 0
        ∨ ((usrl_pub_publish p d data now).1.slots
            (d.w_head % d.slot_count)).seq
          = (d.slots (d.w_head % d.slot_count)).seq + d.slot_count)
    ∧ (d.slots (d.w_head % d.slot_count)).seq
        < ((usrl_pub_publish p d data now).1.slots
            (d.w_head % d.slot_count)).seq
    ∧ (usrl_mwmr_pub_publish pm d data now).2 = USRL_RING_OK
    ∧ ((usrl_mwmr_pub_publish pm d data now).1.slots
        (d.w_head % d.slot_count)).seq = d.w_head + 1
    ∧ SeqInv (usrl_mwmr_pub_publish pm d data now).1 := by
  have hn : 0 < d.slot_count := by
    rw [hpow]
    exact pow_pos (by norm_num) e
  have hidx : d.w_head &&& (d.slot_count - 1) = d.w_head % d.slot_count := by
    rw [hpow]
    exact land_pow_two_sub_one _ e
  have hmlt : d.w_head % d.slot_count < d.slot_count := Nat.mod_lt _ hn
  have hold : (d.slots (d.w_head % d.slot_count)).seq
      = slotSeqAfter d.slot_count d.w_head (d.w_head % d.slot_count) :=
    hinv _ hmlt
  have hat := slotSeqAfter_at_head d.slot_count d.w_head hn
  -- the SWMR publish, evaluated
  have hpub : usrl_pub_publish p d data now
      = ({ d with
            w_head := d.w_head + 1
            slots := fun j =>
              if j = d.w_head &&& (d.slot_count - 1) then
                ⟨d.w_head + 1, now, data.length, p.pub_id, data⟩
              else d.slots j }, 0) := by
    unfold usrl_pub_publish
    rw [if_neg (not_lt.mpr hfit)]
    dsimp only
    rw [Nat.add_sub_cancel]
  -- the first load of the MWMR wait loop already finds the slot free
  have hfree : mwmrFree
      ((fun _ => (d.slots (d.w_head &&& (d.slot_count - 1))).seq) 0)
      (d.w_head + 1) d.slot_count = true := by
    dsimp only
    rw [hidx, hold, hat]
    by_cases hm : d.w_head < d.slot_count
    · rw [if_pos hm]
      simp [mwmrFree]
    · rw [if_neg hm]
      simp only [mwmrFree, Bool.or_eq_true, beq_iff_eq, decide_eq_true_eq]
      right
      have hs : d.w_head + 1 - d.slot_count + d.slot_count = d.w_head + 1 := by
        omega
      have hdiv : (d.w_head + 1) / d.slot_count
          = (d.w_head + 1 - d.slot_count) / d.slot_count + 1 := by
        conv_lhs => rw [← hs]
        rw [Nat.add_div_right _ hn]
      omega
  have hwait : mwmrWaitGo
      (fun _ => (d.slots (d.w_head &&& (d.slot_count - 1))).seq)
      (d.w_head + 1) d.slot_count (mwmrMaxIter + 2) 0 = .free 0 := by
    rw [show mwmrMaxIter + 2 = mwmrMaxIter + 1 + 1 from rfl]
    rw [mwmrWaitGo, if_pos hfree]
  -- the MWMR publish, evaluated
  have hmw : usrl_mwmr_pub_publish pm d data now
      = ({ d with
            w_head := d.w_head + 1
            slots := fun j =>
              if j = d.w_head &&& (d.slot_count - 1) then
                ⟨d.w_head + 1, now, data.length, pm.pub_id, data⟩
              else d.slots j }, USRL_RING_OK) := by
    unfold usrl_mwmr_pub_publish usrl_mwmr_pub_publish_obs
    rw [if_neg (not_lt.mpr hfit)]
    dsimp only
    rw [Nat.add_sub_cancel, hwait]
  have hnew : ((usrl_pub_publish p d data now).1.slots
      (d.w_head % d.slot_count)).seq = d.w_head + 1 := by
    rw [hpub]
    dsimp only
    rw [if_pos hidx.symm]
  have hnewm : ((usrl_mwmr_pub_publish pm d data now).1.slots
      (d.w_head % d.slot_count)).seq = d.w_head + 1 := by
    rw [hmw]
    dsimp only
    rw [if_pos hidx.symm]
  refine ⟨?_, ?_, ?_, hnew, ?_, ?_, ?_, ?_, hnewm, ?_⟩
  · intro n ss i hi
    show (0 : Nat) = slotSeqAfter n 0 i
    rw [slotSeqAfter_zero]
  · intro i hi
    rw [hinv i hi]
    exact slotSeqAfter_eq_zero_iff _ _ _
  · rw [hpub]
  · rw [hpub]
    exact seqInv_commit d _ e hpow hinv rfl
  · by_cases hm : d.w_head < d.slot_count
    · left
      rw [hold, hat, if_pos hm]
    · right
      rw [hnew, hold, hat, if_neg hm]
      omega
  · rw [hnew, hold, hat]
    split <;> omega
  · rw [hmw]
  · rw [hmw]
    exact seqInv_commit d _ e hpow hinv rfl

/-- Witness for C2: the first publishes into a fresh 4-slot ring commit
sequence 1 and succeed on both paths. -/
theorem slot_seq_monotonic_witness :
    (usrl_pub_publish ⟨1⟩ (usrlFreshRing 4 32) [65] 0).2 = 0
    ∧ ((usrl_pub_publish ⟨1⟩ (usrlFreshRing 4 32) [65] 0).1.slots
        ((usrlFreshRing 4 32).w_head % (usrlFreshRing 4 32).slot_count)).seq
      = (usrlFreshRing 4 32).w_head + 1
    ∧ (usrl_mwmr_pub_publish ⟨2⟩ (usrlFreshRing 4 32) [65] 0).2
        = USRL_RING_OK :=
  have h := slot_seq_monotonic 2 ⟨1⟩ ⟨2⟩ (usrlFreshRing 4 32) [65] 0
    (by decide)
    (fun i hi => by
      show (0 : Nat) = slotSeqAfter 4 0 i
      rw [slotSeqAfter_zero])
    (by decide)
  ⟨h.2.2.1, h.2.2.2.1, h.2.2.2.2.2.2.2.1⟩

end Usrl
